import Mathlib

/-!
Shallow embedding of the Tic Tac Toe backend core
(`src/domain/game_logic.py` and `src/storage/repository.py`) and proofs of
the specification's claims about it.

Conventions of the embedding:
* Python board cells `'X' | 'O' | ''` become `Option Player` (`none` = empty).
* Python `board[r][c]` indexing becomes `getCell` via `List.getD`; the
  specification's boards are always 3x3 (`WF`), on which the two agree.
* `raise ValueError(msg)` becomes `Except.error e` with one constructor per
  distinct message (the specification's error kinds).
* `uuid.uuid4()` and `time.time()` are nondeterministic inputs; they are
  modelled as explicit parameters (`game_id`, `now`).
* `random.choice(moves)` draws a uniform index; it is modelled by an explicit
  oracle index `k`, the chosen element being `moves[k % moves.length]`.
* The Python `dict` held by the repository is modelled as an association list
  whose keys are unique by construction (`create_game` refuses duplicates);
  `del d[k]` becomes a filter on the key.
-/

/-- A mark: the Python literals `'X'` and `'O'`. -/
inductive Player where
  | X
  | O
deriving DecidableEq, Repr

/-- A board cell: `''` is `none`, a mark `m` is `some m`. -/
abbrev Cell := Option Player

/-- A board: the Python 3x3 list of lists of cells. -/
abbrev Board := List (List Cell)

/-- `status` field values of `game_logic.py`. -/
inductive Status where
  | in_progress
  | x_won
  | o_won
  | draw
deriving DecidableEq, Repr

/-- `mode` field values: `'pvp' | 'ai'`. -/
inductive Mode where
  | pvp
  | ai
deriving DecidableEq, Repr

/-- AI difficulty values: `'easy' | 'hard'`. -/
inductive Difficulty where
  | easy
  | hard
deriving DecidableEq, Repr

/-- Return value of `check_winner`: `'X' | 'O' | 'draw'` (wrapped in `Option`,
`None` meaning still in progress). -/
inductive Winner where
  | player (p : Player)
  | draw
deriving DecidableEq, Repr

/-- The game-state dict of `game_logic.py`. -/
structure GameState where
  id : String
  board : Board
  next_player : Option Player
  status : Status
  mode : Mode
  ai_difficulty : Option Difficulty
  first_player : Player
  moves : Nat
deriving DecidableEq, Repr

/-- Python `board[r][c]` (total via defaults; agrees with Python on 3x3 boards). -/
def getCell (board : Board) (r c : Nat) : Cell :=
  (board.getD r []).getD c none

/-- Python `board[r][c] = v` on a fresh copy of the board. -/
def setCell (board : Board) (r c : Nat) (v : Cell) : Board :=
  board.set r ((board.getD r []).set c v)

/-- The board is the 3x3 grid the data model prescribes. -/
def WF (board : Board) : Prop :=
  board.length = 3 ∧ ∀ row ∈ board, row.length = 3

instance : DecidablePred WF := fun board =>
  inferInstanceAs (Decidable (board.length = 3 ∧ ∀ row ∈ board, row.length = 3))

/-- `_empty_board` of `game_logic.py`. -/
def _empty_board : Board :=
  [[none, none, none], [none, none, none], [none, none, none]]

/-- `_next_player_after` of `game_logic.py`. -/
def _next_player_after : Option Player → Option Player
  | none => none
  | some current => some (if current = .X then .O else .X)

/-- `create_new_game` of `game_logic.py`; `game_id` stands for the generated
`uuid.uuid4()` string. -/
def create_new_game (game_id : String) (first_player : Player) (mode : Mode)
    (ai_difficulty : Option Difficulty) : GameState :=
  { id := game_id
    board := _empty_board
    next_player := some first_player
    status := .in_progress
    mode := mode
    ai_difficulty := if mode = .ai then ai_difficulty else none
    first_player := first_player
    moves := 0 }

/-- `available_moves` of `game_logic.py`: the empty cells in row-major order. -/
def available_moves (board : Board) : List (Nat × Nat) :=
  (List.range 3).flatMap fun r =>
    ((List.range 3).filter fun c => getCell board r c = none).map fun c => (r, c)

/-- `_lines` of `game_logic.py`: the 3 rows, 3 columns and 2 diagonals. -/
def _lines (board : Board) : List (List Cell) :=
  let rows := board
  let cols := (List.range 3).map fun c => (List.range 3).map fun r => getCell board r c
  let diags := [[getCell board 0 0, getCell board 1 1, getCell board 2 2],
                [getCell board 0 2, getCell board 1 1, getCell board 2 0]]
  rows ++ cols ++ diags

/-- The loop condition of `check_winner`:
`line[0] != "" and line[0] == line[1] == line[2]`. -/
def is_winning_line (line : List Cell) : Bool :=
  decide (line.getD 0 none ≠ none ∧ line.getD 0 none = line.getD 1 none ∧
    line.getD 1 none = line.getD 2 none)

/-- `check_winner` of `game_logic.py`: first full line wins, else draw on a
full board, else `none`. -/
def check_winner (board : Board) : Option Winner :=
  match (_lines board).find? is_winning_line with
  | some line =>
    match line.getD 0 none with
    | some p => some (.player p)
    | none => none
  | none => if available_moves board = [] then some .draw else none

/-- `_derive_status_from_winner` of `game_logic.py`. -/
def _derive_status_from_winner : Option Winner → Status
  | some (.player .X) => .x_won
  | some (.player .O) => .o_won
  | some .draw => .draw
  | none => .in_progress

/-- The four `ValueError`s of `apply_move`, one per message, in source order. -/
inductive MoveError where
  | invalidState
  | outOfBounds
  | noMover
  | cellOccupied
deriving DecidableEq, Repr

instance {ε α : Type} [DecidableEq ε] [DecidableEq α] : DecidableEq (Except ε α) :=
  fun x y =>
    match x, y with
    | .ok a, .ok b =>
      if h : a = b then .isTrue (by rw [h])
      else .isFalse (by intro hc; cases hc; exact h rfl)
    | .error e, .error f =>
      if h : e = f then .isTrue (by rw [h])
      else .isFalse (by intro hc; cases hc; exact h rfl)
    | .ok _, .error _ => .isFalse (by intro hc; cases hc)
    | .error _, .ok _ => .isFalse (by intro hc; cases hc)

/-- `apply_move` of `game_logic.py`. Coordinates are `Int` as Python ints are;
the checks appear in the source's order. -/
def apply_move (state : GameState) (row col : Int) : Except MoveError GameState :=
  if state.status ≠ .in_progress then .error .invalidState
  else if ¬ (0 ≤ row ∧ row < 3 ∧ 0 ≤ col ∧ col < 3) then .error .outOfBounds
  else
    match state.next_player with
    | none => .error .noMover
    | some current_player =>
      if getCell state.board row.toNat col.toNat ≠ none then .error .cellOccupied
      else
        let board := setCell state.board row.toNat col.toNat (some current_player)
        let winner := check_winner board
        let status := _derive_status_from_winner winner
        let next_player :=
          if status = .in_progress then _next_player_after (some current_player) else none
        .ok { state with
              board := board
              next_player := next_player
              status := status
              moves := state.moves + 1 }

/-- `_ai_easy_pick` of `game_logic.py`; `k` is the oracle index drawn by
`random.choice`. -/
def _ai_easy_pick (moves : List (Nat × Nat)) (k : Nat) : Option (Nat × Nat) :=
  if moves = [] then none
  else some (moves.getD (k % moves.length) (0, 0))

/-- `_ai_hard_pick` of `game_logic.py`: falls back to the easy strategy. -/
def _ai_hard_pick (state : GameState) (k : Nat) : Option (Nat × Nat) :=
  _ai_easy_pick (available_moves state.board) k

/-- `ai_pick_move` of `game_logic.py`. -/
def ai_pick_move (state : GameState) (difficulty : Option Difficulty) (k : Nat) :
    Option (Nat × Nat) :=
  if state.status ≠ .in_progress then none
  else if state.mode ≠ .ai then none
  else
    let moves := available_moves state.board
    if moves = [] then none
    else if difficulty = some .hard then _ai_hard_pick state k
    else _ai_easy_pick moves k

/-!  The in-memory repository (`src/storage/repository.py`).  -/

/-- The dict a caller hands to the store. The store only ever reads its
`"id"` key (`game.get("id")`, hence `Option`: `none` when the key is
missing); `data` abstracts the rest of the payload. -/
structure GameDict where
  id : Option String
  data : Nat
deriving DecidableEq, Repr

/-- Python `str(game.get("id"))`: `str(None)` is the literal string `"None"`. -/
def str_of_get : Option String → String
  | none => "None"
  | some s => s

/-- `_StoredGame` of `repository.py`; `created_at` is the `time.time()`
timestamp, modelled as an integer. -/
structure _StoredGame where
  state : GameDict
  created_at : Int
deriving DecidableEq, Repr

/-- State of an `InMemoryRepository`: TTL in seconds fixed at construction,
and the games dict as an association list with unique keys. -/
structure InMemoryRepository where
  _ttl_seconds : Option Int
  _games : List (String × _StoredGame)
deriving DecidableEq, Repr

/-- The two `ValueError`s the store raises, one per message. -/
inductive RepoError where
  | invalidRecord
  | duplicateId
deriving DecidableEq, Repr

/-- `InMemoryRepository.__init__`: the TTL is kept only when
`game_ttl_minutes` is truthy and positive. -/
def repository_init (game_ttl_minutes : Option Int) : InMemoryRepository :=
  { _ttl_seconds :=
      match game_ttl_minutes with
      | some m => if m ≠ 0 ∧ m > 0 then some (m * 60) else none
      | none => none
    _games := [] }

/-- `InMemoryRepository._is_expired`: `(time.time() - stored.created_at) > ttl`. -/
def _is_expired (ttl_seconds : Option Int) (now : Int) (stored : _StoredGame) : Bool :=
  match ttl_seconds with
  | none => false
  | some ttl => decide (now - stored.created_at > ttl)

/-- `InMemoryRepository.create_game`; `now` is the `time.time()` read by the
`_StoredGame` default factory. Returns the new repository state and the
stored record. -/
def create_game (repo : InMemoryRepository) (now : Int) (game : GameDict) :
    Except RepoError (InMemoryRepository × GameDict) :=
  let game_id := str_of_get game.id
  if game_id = "" then .error .invalidRecord
  else if (repo._games.lookup game_id).isSome then .error .duplicateId
  else
    .ok ({ repo with _games := repo._games ++ [(game_id, ⟨game, now⟩)] }, game)

/-- `InMemoryRepository.get_game` (via `_get_if_present_and_not_expired`):
returns the possibly shrunk repository and the lookup result. Deleting the
key from the dict is the filter on the key. -/
def get_game (repo : InMemoryRepository) (now : Int) (game_id : String) :
    InMemoryRepository × Option GameDict :=
  match repo._games.lookup game_id with
  | none => (repo, none)
  | some stored =>
    if _is_expired repo._ttl_seconds now stored then
      ({ repo with _games := repo._games.filter fun kv => kv.1 != game_id }, none)
    else (repo, some stored.state)

/-- The sort key of `list_games`: `(created_at, gid)` ascending, as a Bool
total preorder for `mergeSort`. -/
def stored_le (a b : String × _StoredGame) : Bool :=
  decide (a.2.created_at < b.2.created_at ∨
    (a.2.created_at = b.2.created_at ∧ a.1 ≤ b.1))

/-- `InMemoryRepository.list_games`: sweep every expired entry when a TTL is
set, sort the survivors by `(created_at, gid)`, slice, and project the
states. Returns the swept repository and the page. -/
def list_games (repo : InMemoryRepository) (now : Int) (offset limit : Nat) :
    InMemoryRepository × List GameDict :=
  let games :=
    match repo._ttl_seconds with
    | none => repo._games
    | some _ => repo._games.filter fun kv => ¬ _is_expired repo._ttl_seconds now kv.2
  let items := games.mergeSort stored_le
  let page := (items.drop offset).take limit
  ({ repo with _games := games }, page.map fun kv => kv.2.state)

/-!  Specification-side vocabulary for the claims about `check_winner`.  -/

/-- Mark `m` occupies all three cells of one of the 8 lines. -/
def has_line (board : Board) (m : Player) : Prop :=
  [some m, some m, some m] ∈ _lines board

instance (board : Board) (m : Player) : Decidable (has_line board m) :=
  inferInstanceAs (Decidable ([some m, some m, some m] ∈ _lines board))

/-- No empty cell remains anywhere on the 3x3 grid. -/
def board_full (board : Board) : Prop :=
  ∀ r < 3, ∀ c < 3, getCell board r c ≠ none

instance (board : Board) : Decidable (board_full board) :=
  inferInstanceAs (Decidable (∀ r < 3, ∀ c < 3, getCell board r c ≠ none))

/-- On a well-formed board every one of the 8 lines has three cells. -/
lemma length_of_mem_lines {board : Board} (h : WF board) :
    ∀ l ∈ _lines board, l.length = 3 := by
  intro l hl
  simp only [_lines, List.mem_append, List.mem_map, List.mem_range, List.mem_cons,
    List.not_mem_nil, or_false] at hl
  rcases hl with (hrow | ⟨c, _, rfl⟩) | (rfl | rfl)
  · exact h.2 l hrow
  · simp
  · rfl
  · rfl

/-- The loop condition of `check_winner` holds of a three-cell line exactly
when the line is three equal marks. -/
lemma winning_line_iff {l : List Cell} (hl : l.length = 3) :
    is_winning_line l = true ↔ ∃ m : Player, l = [some m, some m, some m] := by
  obtain ⟨a, b, c, rfl⟩ := List.length_eq_three.mp hl
  simp only [is_winning_line, List.getD_cons_zero, List.getD_cons_succ, decide_eq_true_eq]
  constructor
  · rintro ⟨ha, hab, hbc⟩
    obtain ⟨m, rfl⟩ := Option.ne_none_iff_exists'.mp ha
    exact ⟨m, by rw [← hbc, ← hab]⟩
  · rintro ⟨m, heq⟩
    obtain ⟨rfl, rfl, rfl⟩ : a = some m ∧ b = some m ∧ c = some m := by
      simpa using heq
    simp

/-- `available_moves` is empty exactly when the board is full. -/
lemma available_moves_eq_nil {board : Board} :
    available_moves board = [] ↔ board_full board := by
  simp only [available_moves, board_full, List.flatMap_eq_nil_iff, List.map_eq_nil_iff,
    List.filter_eq_nil_iff, List.mem_range, decide_eq_true_eq]

/-- The loop condition holds of the all-`m` line. -/
lemma is_winning_line_triple (m : Player) :
    is_winning_line [some m, some m, some m] = true := by
  simp [is_winning_line]

/-- The lines holding a full match are exactly the marks with a line. -/
lemma no_winning_line_iff {board : Board} (h : WF board) :
    (∀ x ∈ _lines board, ¬ is_winning_line x = true) ↔ ¬ ∃ m, has_line board m := by
  constructor
  · rintro hall ⟨m, hm⟩
    exact hall _ hm (is_winning_line_triple m)
  · intro hno l hl hwin
    obtain ⟨m, rfl⟩ := (winning_line_iff (length_of_mem_lines h l hl)).mp hwin
    exact hno ⟨m, hl⟩

/-- C1: on every 3x3 board, `check_winner` returns a mark exactly when some
mark occupies all three cells of one of the 8 lines (returning a mark that
does, the head of the first full line), returns `draw` exactly when no line
is full and no empty cell remains, and returns `none` (undecided) otherwise
— in particular the result is a single value, never both a winner and a
draw. -/
theorem check_winner_spec (board : Board) (h : WF board) :
    (∀ m, check_winner board = some (.player m) → has_line board m)
    ∧ ((∃ m, check_winner board = some (.player m)) ↔ (∃ m, has_line board m))
    ∧ (check_winner board = some .draw ↔ (¬ ∃ m, has_line board m) ∧ board_full board)
    ∧ (check_winner board = none ↔ (¬ ∃ m, has_line board m) ∧ ¬ board_full board) := by
  cases hfind : (_lines board).find? is_winning_line with
  | some l =>
    have hwin := List.find?_some hfind
    have hmem := List.mem_of_find?_eq_some hfind
    obtain ⟨m, rfl⟩ := (winning_line_iff (length_of_mem_lines h _ hmem)).mp hwin
    have hcw : check_winner board = some (.player m) := by
      simp [check_winner, hfind]
    have hex : ∃ m, has_line board m := ⟨m, hmem⟩
    refine ⟨?_, ⟨fun _ => hex, fun _ => ⟨m, hcw⟩⟩, ?_, ?_⟩
    · intro m' hm'
      rw [hcw] at hm'
      obtain rfl : m = m' := by
        cases hm'
        rfl
      exact hmem
    · rw [hcw]
      simp [hex]
    · rw [hcw]
      simp [hex]
  | none =>
    have hnol : ¬ ∃ m, has_line board m :=
      (no_winning_line_iff h).mp (List.find?_eq_none.mp hfind)
    by_cases hful : board_full board
    · have hmoves : available_moves board = [] := available_moves_eq_nil.mpr hful
      have hcw : check_winner board = some .draw := by
        simp [check_winner, hfind, hmoves]
      rw [hcw]
      refine ⟨?_, ?_, ?_, ?_⟩
      · intro m' hm'
        simp at hm'
      · constructor
        · rintro ⟨m', hm'⟩
          simp at hm'
        · intro hx
          exact absurd hx hnol
      · simp [hnol, hful]
      · simp [hful]
    · have hmoves : available_moves board ≠ [] := fun hc => hful (available_moves_eq_nil.mp hc)
      have hcw : check_winner board = none := by
        simp [check_winner, hfind, hmoves]
      rw [hcw]
      refine ⟨?_, ?_, ?_, ?_⟩
      · intro m' hm'
        simp at hm'
      · constructor
        · rintro ⟨m', hm'⟩
          simp at hm'
        · intro hx
          exact absurd hx hnol
      · simp [hful]
      · simp [hnol, hful]

/-!  Lemmas about cell reads and writes on well-formed boards.  -/

lemma getD_set_self {α : Type} (l : List α) (i : Nat) (a d : α) (h : i < l.length) :
    (l.set i a).getD i d = a := by
  rw [List.getD_eq_getElem _ _ (by simpa using h)]
  exact List.getElem_set_self _

lemma getD_set_ne {α : Type} (l : List α) {i j : Nat} (hne : i ≠ j) (a d : α) :
    (l.set i a).getD j d = l.getD j d := by
  by_cases hj : j < l.length
  · rw [List.getD_eq_getElem _ _ (by simpa using hj), List.getD_eq_getElem _ _ hj]
    exact List.getElem_set_ne hne _
  · rw [List.getD_eq_default _ _ (by simp; omega), List.getD_eq_default _ _ (by omega)]

lemma getCell_setCell_self {board : Board} (h : WF board) {r c : Nat}
    (hr : r < 3) (hc : c < 3) (v : Cell) :
    getCell (setCell board r c v) r c = v := by
  have hrlen : r < board.length := by rw [h.1]; exact hr
  have hrow : board.getD r [] ∈ board := by
    rw [List.getD_eq_getElem _ _ hrlen]
    exact List.getElem_mem hrlen
  have hclen : c < (board.getD r []).length := by
    rw [h.2 _ hrow]; exact hc
  unfold getCell setCell
  rw [getD_set_self _ _ _ _ hrlen]
  exact getD_set_self _ _ _ _ hclen

lemma getCell_setCell_ne {board : Board} {r c r' c' : Nat}
    (hne : (r', c') ≠ (r, c)) (v : Cell) :
    getCell (setCell board r c v) r' c' = getCell board r' c' := by
  unfold getCell setCell
  by_cases hr : r = r'
  · subst hr
    have hcc : c ≠ c' := by
      intro hc
      exact hne (by rw [hc])
    by_cases hrl : r < board.length
    · rw [getD_set_self _ _ _ _ hrl, getD_set_ne _ hcc]
    · rw [List.set_eq_of_length_le (by omega)]
  · rw [getD_set_ne _ hr]

lemma WF_setCell {board : Board} (h : WF board) (r c : Nat) (v : Cell) :
    WF (setCell board r c v) := by
  constructor
  · simp [setCell, h.1]
  · intro row hrow
    by_cases hrl : r < board.length
    · rcases List.mem_or_eq_of_mem_set hrow with hmem | rfl
      · exact h.2 _ hmem
      · rw [List.length_set]
        apply h.2
        rw [List.getD_eq_getElem _ _ hrl]
        exact List.getElem_mem hrl
    · rw [setCell, List.set_eq_of_length_le (by omega)] at hrow
      exact h.2 _ hrow

/-- C2: from an in-progress state with a mover, a legal in-bounds move on an
empty cell succeeds and yields a new state with the mover's mark at
(row, col), every other cell unchanged, status derived from `check_winner`
on the new board, the mover alternated when still in progress (absent
otherwise), the move counter incremented, and all remaining fields kept.
The embedding is purely functional, so the input state is unchanged by
construction. -/
theorem apply_move_success (s : GameState) (row col : Int) (p : Player)
    (hwf : WF s.board)
    (hst : s.status = .in_progress)
    (hnp : s.next_player = some p)
    (hrow : 0 ≤ row ∧ row < 3) (hcol : 0 ≤ col ∧ col < 3)
    (hempty : getCell s.board row.toNat col.toNat = none) :
    ∃ s', apply_move s row col = .ok s'
      ∧ getCell s'.board row.toNat col.toNat = some p
      ∧ (∀ r' c', (r', c') ≠ (row.toNat, col.toNat) →
          getCell s'.board r' c' = getCell s.board r' c')
      ∧ s'.status = _derive_status_from_winner (check_winner s'.board)
      ∧ s'.next_player =
          (if s'.status = .in_progress then some (if p = .X then .O else .X) else none)
      ∧ s'.moves = s.moves + 1
      ∧ s'.id = s.id ∧ s'.mode = s.mode ∧ s'.ai_difficulty = s.ai_difficulty
      ∧ s'.first_player = s.first_player := by
  have hb : 0 ≤ row ∧ row < 3 ∧ 0 ≤ col ∧ col < 3 := ⟨hrow.1, hrow.2, hcol.1, hcol.2⟩
  have hrn : row.toNat < 3 := by omega
  have hcn : col.toNat < 3 := by omega
  refine ⟨{ s with
      board := setCell s.board row.toNat col.toNat (some p)
      next_player :=
        if _derive_status_from_winner
            (check_winner (setCell s.board row.toNat col.toNat (some p))) = .in_progress
        then _next_player_after (some p) else none
      status := _derive_status_from_winner
        (check_winner (setCell s.board row.toNat col.toNat (some p)))
      moves := s.moves + 1 }, ?_, ?_, ?_, ?_, ?_, ?_, ?_, ?_, ?_, ?_⟩
  · simp [apply_move, hst, hnp, hempty, hb]
  · exact getCell_setCell_self hwf hrn hcn _
  · intro r' c' hne
    exact getCell_setCell_ne hne _
  · rfl
  · simp [_next_player_after]
  · rfl
  · rfl
  · rfl
  · rfl
  · rfl

/-- The success branch of `apply_move`, written out as an equation. -/
lemma apply_move_eq_ok {s : GameState} {row col : Int} {p : Player}
    (hst : s.status = .in_progress)
    (hb : 0 ≤ row ∧ row < 3 ∧ 0 ≤ col ∧ col < 3)
    (hnp : s.next_player = some p)
    (hempty : getCell s.board row.toNat col.toNat = none) :
    apply_move s row col = .ok { s with
      board := setCell s.board row.toNat col.toNat (some p)
      next_player :=
        if _derive_status_from_winner
            (check_winner (setCell s.board row.toNat col.toNat (some p))) = .in_progress
        then _next_player_after (some p) else none
      status := _derive_status_from_winner
        (check_winner (setCell s.board row.toNat col.toNat (some p)))
      moves := s.moves + 1 } := by
  simp [apply_move, hst, hb, hnp, hempty]

/-- Concrete fresh game used to witness C2. -/
def c2_state : GameState := create_new_game "c2" .X .pvp none

/-- C2 witness: the success characterization applied to a fresh game and the
move (0,0). -/
theorem apply_move_success_witness :
    ∃ s', apply_move c2_state 0 0 = .ok s'
      ∧ getCell s'.board 0 0 = some Player.X
      ∧ (∀ r' c', (r', c') ≠ (0, 0) →
          getCell s'.board r' c' = getCell c2_state.board r' c')
      ∧ s'.status = _derive_status_from_winner (check_winner s'.board)
      ∧ s'.next_player =
          (if s'.status = .in_progress
           then some (if Player.X = Player.X then Player.O else Player.X) else none)
      ∧ s'.moves = c2_state.moves + 1
      ∧ s'.id = c2_state.id ∧ s'.mode = c2_state.mode
      ∧ s'.ai_difficulty = c2_state.ai_difficulty
      ∧ s'.first_player = c2_state.first_player :=
  apply_move_success c2_state 0 0 .X (by decide) (by decide) (by decide)
    (by decide) (by decide) (by decide)

/-- C3: the failure checks of `apply_move` fire in the source's order —
first `InvalidState`, then `OutOfBounds`, then `NoMover`, then
`CellOccupied` — no other kind exists, and the call succeeds exactly when
none of the four conditions holds. -/
theorem apply_move_errors (s : GameState) (row col : Int) (hwf : WF s.board) :
    (s.status ≠ .in_progress → apply_move s row col = .error .invalidState)
    ∧ (s.status = .in_progress → ¬ (0 ≤ row ∧ row < 3 ∧ 0 ≤ col ∧ col < 3) →
        apply_move s row col = .error .outOfBounds)
    ∧ (s.status = .in_progress → (0 ≤ row ∧ row < 3 ∧ 0 ≤ col ∧ col < 3) →
        s.next_player = none → apply_move s row col = .error .noMover)
    ∧ (∀ p, s.status = .in_progress → (0 ≤ row ∧ row < 3 ∧ 0 ≤ col ∧ col < 3) →
        s.next_player = some p → getCell s.board row.toNat col.toNat ≠ none →
        apply_move s row col = .error .cellOccupied)
    ∧ ((∃ s', apply_move s row col = .ok s') ↔
        (s.status = .in_progress ∧ (0 ≤ row ∧ row < 3 ∧ 0 ≤ col ∧ col < 3)
          ∧ (∃ p, s.next_player = some p)
          ∧ getCell s.board row.toNat col.toNat = none)) := by
  refine ⟨?_, ?_, ?_, ?_, ?_⟩
  · intro hst
    simp [apply_move, hst]
  · intro hst hb
    simp [apply_move, hst, hb]
  · intro hst hb hnp
    simp [apply_move, hst, hb, hnp]
  · intro p hst hb hnp hocc
    simp [apply_move, hst, hb, hnp, hocc]
  · constructor
    · rintro ⟨s', hs'⟩
      by_cases hst : s.status = .in_progress
      · by_cases hb : 0 ≤ row ∧ row < 3 ∧ 0 ≤ col ∧ col < 3
        · cases hnp : s.next_player with
          | none => simp [apply_move, hst, hb, hnp] at hs'
          | some p =>
            by_cases hocc : getCell s.board row.toNat col.toNat = none
            · exact ⟨hst, hb, ⟨p, rfl⟩, hocc⟩
            · simp [apply_move, hst, hb, hnp, hocc] at hs'
        · simp [apply_move, hst, hb] at hs'
      · simp [apply_move, hst] at hs'
    · rintro ⟨hst, hb, ⟨p, hnp⟩, hocc⟩
      exact ⟨_, apply_move_eq_ok hst hb hnp hocc⟩

/-- C3 witness: a finished game rejects any further move with
`InvalidState`, instantiated concretely. -/
theorem apply_move_errors_witness :
    ({ c2_state with status := .x_won } : GameState).status ≠ .in_progress ∧
    apply_move { c2_state with status := .x_won } 0 0 = .error .invalidState :=
  ⟨by decide,
    (apply_move_errors { c2_state with status := .x_won } 0 0 (by decide)).1 (by decide)⟩

/-!  C4: states reachable through the Rules Engine and their invariant.  -/

/-- Number of non-empty cells on the board. -/
def count_marks (board : Board) : Nat :=
  (board.map fun row => row.countP fun cell => cell.isSome).sum

/-- States producible by `create_new_game` followed by any sequence of
successful `apply_move` calls. -/
inductive Reachable : GameState → Prop where
  | new (game_id : String) (first_player : Player) (mode : Mode)
      (ai_difficulty : Option Difficulty) :
      Reachable (create_new_game game_id first_player mode ai_difficulty)
  | step (s s' : GameState) (row col : Int) :
      Reachable s → apply_move s row col = .ok s' → Reachable s'

/-- Writing a mark on an empty in-range cell of a row adds one to its count
of non-empty cells. -/
lemma countP_set_some (p : Player) :
    ∀ (l : List Cell) (c : Nat), c < l.length → l.getD c none = none →
      ((l.set c (some p)).countP fun cell => cell.isSome)
        = (l.countP fun cell => cell.isSome) + 1 := by
  intro l
  induction l with
  | nil => intro c hc _; simp at hc
  | cons a t ih =>
    intro c hc he
    cases c with
    | zero =>
      rw [List.getD_cons_zero] at he
      subst he
      simp [List.countP_cons]
    | succ n =>
      rw [List.getD_cons_succ] at he
      have hn : n < t.length := by simpa using hc
      simp only [List.set_cons_succ, List.countP_cons, ih n hn he]
      omega

/-- Replacing one element of a list shifts the sum of a mapped function by
the difference at that position. -/
lemma sum_map_set {α : Type} (f : α → Nat) :
    ∀ (l : List α) (i : Nat) (x : α), i < l.length →
      (((l.set i x).map f).sum + f (l.getD i x)) = ((l.map f).sum + f x) := by
  intro l
  induction l with
  | nil => intro i x hi; simp at hi
  | cons a t ih =>
    intro i x hi
    cases i with
    | zero => simp [List.getD_cons_zero]; omega
    | succ n =>
      have hn : n < t.length := by simpa using hi
      simp only [List.set_cons_succ, List.map_cons, List.sum_cons, List.getD_cons_succ]
      have := ih n x hn
      omega

/-- Placing a mark on an empty in-range cell adds one to the board's count
of non-empty cells. -/
lemma count_marks_setCell {board : Board} (h : WF board) {r c : Nat} (p : Player)
    (hr : r < 3) (hc : c < 3) (he : getCell board r c = none) :
    count_marks (setCell board r c (some p)) = count_marks board + 1 := by
  have hrlen : r < board.length := by rw [h.1]; exact hr
  have hrowmem : board.getD r [] ∈ board := by
    rw [List.getD_eq_getElem _ _ hrlen]
    exact List.getElem_mem hrlen
  have hclen : c < (board.getD r []).length := by rw [h.2 _ hrowmem]; exact hc
  have hcnt := countP_set_some p (board.getD r []) c hclen he
  have hsum := sum_map_set (fun row => row.countP fun cell => cell.isSome) board r
    ((board.getD r []).set c (some p)) hrlen
  unfold count_marks setCell
  have hgd : board.getD r ((board.getD r []).set c (some p)) = board.getD r [] := by
    rw [List.getD_eq_getElem _ _ hrlen, List.getD_eq_getElem _ _ hrlen]
  rw [hgd] at hsum
  simp only at hsum
  omega

/-- Strengthened invariant carried through the induction: the board stays
3x3, a finished game has no mover, and the move counter equals the number
of marks. -/
lemma reachable_invariant_aux {s : GameState} (h : Reachable s) :
    WF s.board ∧ (s.status ≠ .in_progress → s.next_player = none)
      ∧ s.moves = count_marks s.board := by
  induction h with
  | new game_id first_player mode ai_difficulty =>
    refine ⟨?_, fun hst => absurd rfl hst, ?_⟩
    · show WF _empty_board
      decide
    · show 0 = count_marks _empty_board
      decide
  | step s s' row col _ hok ih =>
    have hst : s.status = .in_progress := by
      by_contra hst
      simp [apply_move, hst] at hok
    by_cases hb : 0 ≤ row ∧ row < 3 ∧ 0 ≤ col ∧ col < 3
    · cases hnp : s.next_player with
      | none => simp [apply_move, hst, hb, hnp] at hok
      | some p =>
        by_cases hocc : getCell s.board row.toNat col.toNat = none
        · rw [apply_move_eq_ok hst hb hnp hocc] at hok
          cases hok
          have hrn : row.toNat < 3 := by omega
          have hcn : col.toNat < 3 := by omega
          refine ⟨WF_setCell ih.1 _ _ _, ?_, ?_⟩
          · intro hst'
            simp only at hst' ⊢
            rw [if_neg hst']
          · simp only
            rw [count_marks_setCell ih.1 p hrn hcn hocc, ih.2.2]
        · simp [apply_move, hst, hb, hnp, hocc] at hok
    · simp [apply_move, hst, hb] at hok

/-- C4: every state produced by `create_new_game` and then any sequence of
successful `apply_move` calls satisfies the invariant: a game that is not
in progress has no next mover, and the move counter equals the number of
non-empty cells on the board. -/
theorem reachable_invariant (s : GameState) (h : Reachable s) :
    (s.status ≠ .in_progress → s.next_player = none)
      ∧ s.moves = count_marks s.board :=
  (reachable_invariant_aux h).2

/-- C4 witness: the invariant instantiated on a concrete fresh game. -/
theorem reachable_invariant_witness :
    ((create_new_game "c4" .O .ai (some .hard)).status ≠ .in_progress →
      (create_new_game "c4" .O .ai (some .hard)).next_player = none)
    ∧ (create_new_game "c4" .O .ai (some .hard)).moves
        = count_marks (create_new_game "c4" .O .ai (some .hard)).board :=
  reachable_invariant _ (Reachable.new "c4" .O .ai (some .hard))

/-- C5 (amended): after a successful `apply_move` at (row, col), replaying
the same coordinates on the result fails — with `CellOccupied` when the
move left the game in progress, and with `InvalidState` when the move ended
the game (the status check precedes the occupancy check). -/
theorem apply_move_double (s s' : GameState) (row col : Int) (hwf : WF s.board)
    (h : apply_move s row col = .ok s') :
    (s'.status = .in_progress → apply_move s' row col = .error .cellOccupied)
    ∧ (s'.status ≠ .in_progress → apply_move s' row col = .error .invalidState) := by
  have hst : s.status = .in_progress := by
    by_contra hst
    simp [apply_move, hst] at h
  by_cases hb : 0 ≤ row ∧ row < 3 ∧ 0 ≤ col ∧ col < 3
  · cases hnp : s.next_player with
    | none => simp [apply_move, hst, hb, hnp] at h
    | some p =>
      by_cases hocc : getCell s.board row.toNat col.toNat = none
      · rw [apply_move_eq_ok hst hb hnp hocc] at h
        cases h
        have hrn : row.toNat < 3 := by omega
        have hcn : col.toNat < 3 := by omega
        have hget := getCell_setCell_self hwf hrn hcn (some p)
        constructor
        · intro hst'
          simp only at hst' hget
          simp [apply_move, hst', hb, hget, _next_player_after]
        · intro hst'
          simp only at hst'
          simp [apply_move, hst']
      · simp [apply_move, hst, hb, hnp, hocc] at h
  · simp [apply_move, hst, hb] at h

/-- A state one winning move away from ending: X is about to complete the
top row. -/
def c5_state : GameState :=
  { id := "c5"
    board := [[some .X, some .X, none], [some .O, some .O, none], [none, none, none]]
    next_player := some .X
    status := .in_progress
    mode := .pvp
    ai_difficulty := none
    first_player := .X
    moves := 4 }

/-- The state after X completes the top row from `c5_state`. -/
def c5_after : GameState :=
  { id := "c5"
    board := [[some .X, some .X, some .X], [some .O, some .O, none], [none, none, none]]
    next_player := none
    status := .x_won
    mode := .pvp
    ai_difficulty := none
    first_player := .X
    moves := 5 }

/-- C5 counterexample: when the first application of (0,2) wins the game,
replaying (0,2) fails with `InvalidState`, not `CellOccupied` — the claim
as stated is false. -/
theorem apply_move_double_counterexample :
    apply_move c5_state 0 2 = .ok c5_after
    ∧ apply_move c5_after 0 2 = .error .invalidState
    ∧ apply_move c5_after 0 2 ≠ .error .cellOccupied := by decide

/-- The state after the opening move (0,0) of a fresh pvp game. -/
def c5w_after : GameState :=
  { id := "c2"
    board := [[some .X, none, none], [none, none, none], [none, none, none]]
    next_player := some .O
    status := .in_progress
    mode := .pvp
    ai_difficulty := none
    first_player := .X
    moves := 1 }

/-- C5 witness: the amended double-application law applied to the concrete
opening move, where the game stays in progress and the replay is rejected
as occupied. -/
theorem apply_move_double_witness :
    (c5w_after.status = .in_progress → apply_move c5w_after 0 0 = .error .cellOccupied)
    ∧ (c5w_after.status ≠ .in_progress → apply_move c5w_after 0 0 = .error .invalidState) :=
  apply_move_double c2_state c5w_after 0 0 (by decide) (by decide)

/-- When the gate conditions pass, both difficulties reduce to the easy
(uniform random) pick over the same move list. -/
lemma ai_pick_move_eq_easy (s : GameState) (d : Option Difficulty) (k : Nat)
    (hst : s.status = .in_progress) (hmode : s.mode = .ai) :
    ai_pick_move s d k = _ai_easy_pick (available_moves s.board) k := by
  by_cases hne : available_moves s.board = []
  · simp [ai_pick_move, _ai_hard_pick, _ai_easy_pick, hst, hmode, hne]
  · simp only [ai_pick_move, _ai_hard_pick, hst, hmode, hne]
    simp only [ne_eq, not_true_eq_false, if_false, if_neg hne]
    split <;> rfl

/-- C9: `ai_pick_move` returns `none` when the game is not in progress, when
the mode is not `ai`, or when no move is available; otherwise it returns
one of the available moves (the uniformly drawn index `k` selecting
`moves[k % moves.length]`, every available move being selected by some
draw), and `hard` degrades to exactly the `easy` policy. The function is
pure, so the state is never mutated. -/
theorem ai_pick_move_spec (s : GameState) (d : Option Difficulty) (k : Nat) :
    (s.status ≠ .in_progress → ai_pick_move s d k = none)
    ∧ (s.mode ≠ .ai → ai_pick_move s d k = none)
    ∧ (available_moves s.board = [] → ai_pick_move s d k = none)
    ∧ (s.status = .in_progress → s.mode = .ai → available_moves s.board ≠ [] →
        ∃ mv ∈ available_moves s.board, ai_pick_move s d k = some mv)
    ∧ ai_pick_move s (some .hard) k = ai_pick_move s (some .easy) k
    ∧ (s.status = .in_progress → s.mode = .ai →
        ∀ mv ∈ available_moves s.board, ∃ j, ai_pick_move s d j = some mv) := by
  refine ⟨?_, ?_, ?_, ?_, ?_, ?_⟩
  · intro hst
    simp [ai_pick_move, hst]
  · intro hmode
    by_cases hst : s.status = .in_progress
    · simp [ai_pick_move, hst, hmode]
    · simp [ai_pick_move, hst]
  · intro hmv
    by_cases hst : s.status = .in_progress
    · by_cases hmode : s.mode = .ai
      · simp [ai_pick_move, _ai_hard_pick, _ai_easy_pick, hst, hmode, hmv]
      · simp [ai_pick_move, hst, hmode]
    · simp [ai_pick_move, hst]
  · intro hst hmode hmv
    have hlen : 0 < (available_moves s.board).length := List.length_pos.mpr hmv
    have hidx : k % (available_moves s.board).length < (available_moves s.board).length :=
      Nat.mod_lt _ hlen
    refine ⟨(available_moves s.board).getD (k % (available_moves s.board).length) (0, 0),
      ?_, ?_⟩
    · rw [List.getD_eq_getElem _ _ hidx]
      exact List.getElem_mem hidx
    · rw [ai_pick_move_eq_easy s d k hst hmode, _ai_easy_pick, if_neg hmv]
  · by_cases hst : s.status = .in_progress
    · by_cases hmode : s.mode = .ai
      · rw [ai_pick_move_eq_easy s (some .hard) k hst hmode,
          ai_pick_move_eq_easy s (some .easy) k hst hmode]
      · simp [ai_pick_move, hst, hmode]
    · simp [ai_pick_move, hst]
  · intro hst hmode mv hmv
    obtain ⟨n, hn, hget⟩ := List.mem_iff_getElem.mp hmv
    have hne : available_moves s.board ≠ [] := by
      intro hc
      rw [hc] at hmv
      exact absurd hmv (List.not_mem_nil mv)
    refine ⟨n, ?_⟩
    have hmod : n % (available_moves s.board).length = n := Nat.mod_eq_of_lt hn
    rw [ai_pick_move_eq_easy s d n hst hmode, _ai_easy_pick, if_neg hne, hmod,
      List.getD_eq_getElem _ _ hn, hget]

/-- Concrete ai-mode fresh game used to witness C9. -/
def c9_state : GameState := create_new_game "c9" .X .ai (some .easy)

/-- C9 witness: the policy characterization applied at a concrete state and
draw. -/
theorem ai_pick_move_spec_witness :
    (c9_state.status ≠ .in_progress → ai_pick_move c9_state none 4 = none)
    ∧ (c9_state.mode ≠ .ai → ai_pick_move c9_state none 4 = none)
    ∧ (available_moves c9_state.board = [] → ai_pick_move c9_state none 4 = none)
    ∧ (c9_state.status = .in_progress → c9_state.mode = .ai →
        available_moves c9_state.board ≠ [] →
        ∃ mv ∈ available_moves c9_state.board, ai_pick_move c9_state none 4 = some mv)
    ∧ ai_pick_move c9_state (some .hard) 4 = ai_pick_move c9_state (some .easy) 4
    ∧ (c9_state.status = .in_progress → c9_state.mode = .ai →
        ∀ mv ∈ available_moves c9_state.board, ∃ j, ai_pick_move c9_state none j = some mv) :=
  ai_pick_move_spec c9_state none 4

/-!  The store claims.  -/

/-- Looking a key up after appending a fresh binding for it finds the new
binding, provided the key was absent before. -/
lemma lookup_append_not_found {α β : Type} [BEq α] [LawfulBEq α]
    {l : List (α × β)} {k : α} (h : l.lookup k = none) (v : β) :
    (l ++ [(k, v)]).lookup k = some v := by
  induction l with
  | nil => simp [List.lookup]
  | cons a t ih =>
    obtain ⟨ka, va⟩ := a
    rw [List.lookup_cons] at h
    rw [List.cons_append, List.lookup_cons]
    cases hk : k == ka with
    | true => simp [hk] at h
    | false =>
      simp only [hk] at h ⊢
      exact ih h

/-- C6 (amended): `create_game` rejects with `InvalidRecord` exactly the
records whose identifier coerces to the empty string (a present, empty
`id`); a missing `id` coerces to the non-empty string `"None"` and is
accepted. It rejects with `DuplicateId` when the identifier is already
bound. Otherwise it appends the record with `created_at = now` and returns
it, and `get_game` on that identifier (while the record is not expired and
before any update) returns the stored record unchanged. -/
theorem create_game_spec (repo : InMemoryRepository) (now now2 : Int) (game : GameDict) :
    (game.id = some "" → create_game repo now game = .error .invalidRecord)
    ∧ (game.id ≠ some "" → (repo._games.lookup (str_of_get game.id)).isSome →
        create_game repo now game = .error .duplicateId)
    ∧ (game.id ≠ some "" → repo._games.lookup (str_of_get game.id) = none →
        ∃ repo', create_game repo now game = .ok (repo', game)
          ∧ repo'._games = repo._games ++ [(str_of_get game.id, ⟨game, now⟩)]
          ∧ repo'._ttl_seconds = repo._ttl_seconds
          ∧ (_is_expired repo'._ttl_seconds now2 ⟨game, now⟩ = false →
              get_game repo' now2 (str_of_get game.id) = (repo', some game))) := by
  have hid : game.id ≠ some "" → str_of_get game.id ≠ "" := by
    intro h
    cases hgi : game.id with
    | none => simp [str_of_get]
    | some s =>
      simp only [str_of_get]
      intro hc
      exact h (by rw [hgi, hc])
  refine ⟨?_, ?_, ?_⟩
  · intro h
    simp [create_game, h, str_of_get]
  · intro h hdup
    simp [create_game, hid h, hdup]
  · intro h habs
    refine ⟨{ repo with _games := repo._games ++ [(str_of_get game.id, ⟨game, now⟩)] },
      ?_, rfl, rfl, ?_⟩
    · simp [create_game, hid h, habs]
    · intro hexp
      simp only [get_game, lookup_append_not_found habs, hexp]
      rw [if_neg (by simp)]

/-- The empty store with no TTL. -/
def c6_repo : InMemoryRepository := repository_init none

/-- C6 counterexample: a record with no identifier at all is not rejected
with `InvalidRecord`; it is stored under the coerced key `"None"` — the
claim's "or missing" clause is false on the code. -/
theorem create_game_missing_id_counterexample :
    create_game c6_repo 0 ⟨none, 7⟩ =
      .ok (⟨none, [("None", ⟨⟨none, 7⟩, 0⟩)]⟩, ⟨none, 7⟩)
    ∧ create_game c6_repo 0 ⟨none, 7⟩ ≠ .error .invalidRecord := by
  constructor
  · rfl
  · intro h
    cases h

/-- Concrete store contents used to witness C6. -/
def c6w_repo : InMemoryRepository := ⟨some 120, []⟩

/-- C6 witness: creating a concrete record in an empty store and reading it
back. -/
theorem create_game_spec_witness :
    ((⟨some "g1", 3⟩ : GameDict).id = some "" →
      create_game c6w_repo 100 ⟨some "g1", 3⟩ = .error .invalidRecord)
    ∧ ((⟨some "g1", 3⟩ : GameDict).id ≠ some "" →
        (c6w_repo._games.lookup (str_of_get (some "g1"))).isSome →
        create_game c6w_repo 100 ⟨some "g1", 3⟩ = .error .duplicateId)
    ∧ ((⟨some "g1", 3⟩ : GameDict).id ≠ some "" →
        c6w_repo._games.lookup (str_of_get (some "g1")) = none →
        ∃ repo', create_game c6w_repo 100 ⟨some "g1", 3⟩ = .ok (repo', ⟨some "g1", 3⟩)
          ∧ repo'._games = c6w_repo._games ++ [(str_of_get (some "g1"), ⟨⟨some "g1", 3⟩, 100⟩)]
          ∧ repo'._ttl_seconds = c6w_repo._ttl_seconds
          ∧ (_is_expired repo'._ttl_seconds 150 ⟨⟨some "g1", 3⟩, 100⟩ = false →
              get_game repo' 150 (str_of_get (some "g1")) = (repo', some ⟨some "g1", 3⟩))) :=
  create_game_spec c6w_repo 100 150 ⟨some "g1", 3⟩

/-- Concrete board (X across the top row) used to witness C1. -/
def c1_board : Board :=
  [[some .X, some .X, some .X], [some .O, some .O, none], [none, none, none]]

/-- C1 witness: the `check_winner` characterization applied to a concrete
winning board. -/
theorem check_winner_spec_witness :
    (∀ m, check_winner c1_board = some (.player m) → has_line c1_board m)
    ∧ ((∃ m, check_winner c1_board = some (.player m)) ↔ (∃ m, has_line c1_board m))
    ∧ (check_winner c1_board = some .draw ↔
        (¬ ∃ m, has_line c1_board m) ∧ board_full c1_board)
    ∧ (check_winner c1_board = none ↔
        (¬ ∃ m, has_line c1_board m) ∧ ¬ board_full c1_board) :=
  check_winner_spec c1_board (by decide)

/-- `get_game` of a repository without a TTL never evicts: it simply reports
the lookup result. -/
lemma get_game_no_ttl {repo : InMemoryRepository} (h : repo._ttl_seconds = none)
    (now : Int) (gid : String) :
    get_game repo now gid = (repo, (repo._games.lookup gid).map fun st => st.state) := by
  unfold get_game
  cases hlk : repo._games.lookup gid with
  | none => rfl
  | some stored => simp [_is_expired, h]

/-- C7: with a TTL configured, `get_game` on an expired entry deletes it and
returns `none` (lazy eviction), and `list_games` first sweeps every expired
entry — its surviving store keeps exactly the non-expired records and every
listed item comes from a non-expired record; with no TTL, nothing expires
and `get_game` returns `none` only for absent identifiers, evicting
nothing. -/
theorem get_game_ttl (repo : InMemoryRepository) (now ttl : Int) (gid : String)
    (stored : _StoredGame) (offset limit : Nat) :
    (repo._ttl_seconds = some ttl → repo._games.lookup gid = some stored →
      now - stored.created_at > ttl →
      get_game repo now gid =
        ({ repo with _games := repo._games.filter fun kv => kv.1 != gid }, none))
    ∧ (repo._ttl_seconds = some ttl →
        (list_games repo now offset limit).1._games =
          repo._games.filter (fun kv => decide (now - kv.2.created_at ≤ ttl))
        ∧ ∀ x ∈ (list_games repo now offset limit).2,
            ∃ kv ∈ repo._games, _is_expired repo._ttl_seconds now kv.2 = false
              ∧ x = kv.2.state)
    ∧ (repo._ttl_seconds = none →
        get_game repo now gid = (repo, (repo._games.lookup gid).map fun st => st.state)) := by
  refine ⟨?_, ?_, ?_⟩
  · intro httl hlk hexp
    have hexp' : _is_expired repo._ttl_seconds now stored = true := by
      simp [_is_expired, httl, hexp]
    simp [get_game, hlk, hexp']
  · intro httl
    constructor
    · simp only [list_games, httl]
      apply List.filter_congr
      intro kv _
      simp [_is_expired, httl]
    · intro x hx
      simp only [list_games, httl] at hx
      obtain ⟨kv, hkv, rfl⟩ := List.mem_map.mp hx
      have hkv' := List.mem_of_mem_drop (List.mem_of_mem_take hkv)
      have hkv'' := (List.mergeSort_perm _ stored_le).subset hkv'
      have hmf := List.mem_filter.mp hkv''
      refine ⟨kv, hmf.1, ?_, rfl⟩
      rw [httl]
      have := hmf.2
      simp only [decide_eq_true_eq, Bool.not_eq_true] at this
      exact this
  · intro httl
    exact get_game_no_ttl httl now gid

/-- Store with a two-minute TTL holding one record created at time 100. -/
def c7_repo : InMemoryRepository := ⟨some 120, [("a", ⟨⟨some "a", 1⟩, 100⟩)]⟩

/-- C7 witness: the TTL characterization applied to a concrete store
observed after the record expired. -/
theorem get_game_ttl_witness :
    (c7_repo._ttl_seconds = some 120 →
      c7_repo._games.lookup "a" = some ⟨⟨some "a", 1⟩, 100⟩ →
      (300 : Int) - (⟨⟨some "a", 1⟩, 100⟩ : _StoredGame).created_at > 120 →
      get_game c7_repo 300 "a" =
        ({ c7_repo with _games := c7_repo._games.filter fun kv => kv.1 != "a" }, none))
    ∧ (c7_repo._ttl_seconds = some 120 →
        (list_games c7_repo 300 0 10).1._games =
          c7_repo._games.filter (fun kv => decide ((300 : Int) - kv.2.created_at ≤ 120))
        ∧ ∀ x ∈ (list_games c7_repo 300 0 10).2,
            ∃ kv ∈ c7_repo._games, _is_expired c7_repo._ttl_seconds 300 kv.2 = false
              ∧ x = kv.2.state)
    ∧ (c7_repo._ttl_seconds = none →
        get_game c7_repo 300 "a" =
          (c7_repo, (c7_repo._games.lookup "a").map fun st => st.state)) :=
  get_game_ttl c7_repo 300 120 "a" ⟨⟨some "a", 1⟩, 100⟩ 0 10

/-- The sort key of `list_games` is transitive. -/
lemma stored_le_trans (a b c : String × _StoredGame) :
    stored_le a b = true → stored_le b c = true → stored_le a c = true := by
  simp only [stored_le, decide_eq_true_eq]
  rintro (h1 | ⟨h1, h1'⟩) (h2 | ⟨h2, h2'⟩)
  · exact Or.inl (lt_trans h1 h2)
  · exact Or.inl (h2 ▸ h1)
  · exact Or.inl (h1 ▸ h2)
  · exact Or.inr ⟨h1.trans h2, le_trans h1' h2'⟩

/-- The sort key of `list_games` is total. -/
lemma stored_le_total (a b : String × _StoredGame) :
    (stored_le a b || stored_le b a) = true := by
  simp only [stored_le, Bool.or_eq_true, decide_eq_true_eq]
  rcases lt_trichotomy a.2.created_at b.2.created_at with h | h | h
  · exact Or.inl (Or.inl h)
  · rcases le_total a.1 b.1 with hs | hs
    · exact Or.inl (Or.inr ⟨h, hs⟩)
    · exact Or.inr (Or.inr ⟨h.symm, hs⟩)
  · exact Or.inr (Or.inl h)

/-- C8: `list_games` returns the page `[offset, offset + limit)` of the
surviving (post-sweep) records sorted ascending by `(created_at, id)` —
hence never more than `limit` items — and with no insertions or evictions
in between, the pages `[0, k)` and `[k, k + m)` concatenate to the page
`[0, k + m)`. -/
theorem list_games_pagination (repo : InMemoryRepository) (now : Int)
    (offset limit k m : Nat) (hlim : 0 < limit) :
    (list_games repo now offset limit).2.length ≤ limit
    ∧ (list_games repo now 0 k).2 ++ (list_games repo now k m).2
        = (list_games repo now 0 (k + m)).2
    ∧ ∃ items : List (String × _StoredGame),
        items.Perm (list_games repo now offset limit).1._games
        ∧ items.Pairwise (fun a b => stored_le a b = true)
        ∧ (list_games repo now offset limit).2
            = ((items.drop offset).take limit).map fun kv => kv.2.state := by
  refine ⟨?_, ?_, ?_⟩
  · simp only [list_games]
    rw [List.length_map]
    exact le_trans (List.length_take_le _ _) (le_refl _)
  · simp only [list_games, List.drop_zero]
    rw [← List.map_append, ← List.take_add]
  · refine ⟨_, List.mergeSort_perm _ stored_le, ?_, rfl⟩
    exact List.sorted_mergeSort stored_le_trans stored_le_total _

/-- C8 witness: pagination facts on the concrete one-record store. -/
theorem list_games_pagination_witness :
    (list_games c7_repo 150 0 5).2.length ≤ 5
    ∧ (list_games c7_repo 150 0 1).2 ++ (list_games c7_repo 150 1 2).2
        = (list_games c7_repo 150 0 (1 + 2)).2
    ∧ ∃ items : List (String × _StoredGame),
        items.Perm (list_games c7_repo 150 0 5).1._games
        ∧ items.Pairwise (fun a b => stored_le a b = true)
        ∧ (list_games c7_repo 150 0 5).2
            = ((items.drop 0).take 5).map fun kv => kv.2.state :=
  list_games_pagination c7_repo 150 0 5 1 2 (by decide)

/-- C10: a store constructed with a zero or negative TTL duration is the
very same store as one constructed with no TTL, and on any store whose TTL
is unset nothing is ever expired: `get_game` only reports the lookup
(never evicting) and the sweep of `list_games` deletes nothing. -/
theorem repository_init_nonpositive_ttl (mins : Int) (repo : InMemoryRepository)
    (now : Int) (gid : String) (stored : _StoredGame) (offset limit : Nat) :
    (mins ≤ 0 → repository_init (some mins) = repository_init none)
    ∧ (repo._ttl_seconds = none →
        _is_expired repo._ttl_seconds now stored = false
        ∧ get_game repo now gid = (repo, (repo._games.lookup gid).map fun st => st.state)
        ∧ (list_games repo now offset limit).1._games = repo._games) := by
  constructor
  · intro hm
    simp only [repository_init]
    rw [if_neg (by omega)]
  · intro httl
    refine ⟨by simp [_is_expired, httl], get_game_no_ttl httl now gid, ?_⟩
    simp [list_games, httl]

/-- C10 witness: a store built with TTL −5 minutes equals the TTL-free
store, and the TTL-free behavior instantiated on a concrete store. -/
theorem repository_init_nonpositive_ttl_witness :
    ((-5 : Int) ≤ 0 → repository_init (some (-5)) = repository_init none)
    ∧ ((⟨none, [("b", ⟨⟨some "b", 2⟩, 50⟩)]⟩ : InMemoryRepository)._ttl_seconds = none →
        _is_expired (⟨none, [("b", ⟨⟨some "b", 2⟩, 50⟩)]⟩ :
            InMemoryRepository)._ttl_seconds 99999 ⟨⟨some "b", 2⟩, 50⟩ = false
        ∧ get_game ⟨none, [("b", ⟨⟨some "b", 2⟩, 50⟩)]⟩ 99999 "b" =
            (⟨none, [("b", ⟨⟨some "b", 2⟩, 50⟩)]⟩,
              ((⟨none, [("b", ⟨⟨some "b", 2⟩, 50⟩)]⟩ :
                InMemoryRepository)._games.lookup "b").map fun st => st.state)
        ∧ (list_games ⟨none, [("b", ⟨⟨some "b", 2⟩, 50⟩)]⟩ 99999 0 10).1._games =
            (⟨none, [("b", ⟨⟨some "b", 2⟩, 50⟩)]⟩ : InMemoryRepository)._games) :=
  repository_init_nonpositive_ttl (-5) ⟨none, [("b", ⟨⟨some "b", 2⟩, 50⟩)]⟩ 99999 "b"
    ⟨⟨some "b", 2⟩, 50⟩ 0 10
